import Mathlib

/-!
Verification of the credential-rotation scheduler and retry executor of
`src/gemini_manager.py` (Project-Lifeline), as a shallow embedding in Lean.

Modelling conventions:
* Timestamps (`time.time()` values) are natural numbers; `time.sleep(1)`
  between retry attempts advances the clock by one, so the clock observed
  during attempt `a` of one `call_with_retry` invocation is `t0 + a`.
* The mutable Python `APIKey` objects live in the manager's `keys` list;
  a Python reference to such an object is modelled by its list position,
  and the `mark_*` operations act on the state at that position.
* The network (`client.models.generate_content`) is an oracle mapping the
  attempt number and model name to either a response text or the text of
  the exception it raises.
* Python's local-variable semantics in `call_with_retry` are modelled
  explicitly: the variable `key` is an `Option (index)` that starts out
  unbound (`none`) and keeps its last bound value across loop iterations;
  evaluating it while unbound raises `UnboundLocalError`.
-/

/-- `KeyStatus` enum of `gemini_manager.py` (lines 13–17). -/
inductive KeyStatus where
  | AVAILABLE
  | RATE_LIMITED
  | EXHAUSTED
  | ERROR
  deriving DecidableEq, Repr

/-- `APIKey` dataclass of `gemini_manager.py` (lines 19–26). -/
structure APIKey where
  key : String
  index : Nat
  status : KeyStatus := .AVAILABLE
  last_used : Nat := 0
  error_count : Nat := 0
  cooldown_until : Nat := 0
  deriving DecidableEq, Repr

/-- The mutable state of a `GeminiKeyManager`: the key pool together with
the rotation cursor `current_index` (lines 33–35). -/
structure ManagerState where
  keys : List APIKey
  current_index : Nat
  deriving DecidableEq, Repr

/-- `GeminiKeyManager.__init__` (lines 33–35): one `APIKey` per secret,
indices in list order, cursor at 0. -/
def initManager (api_keys : List String) : ManagerState :=
  { keys := api_keys.enum.map fun p => { key := p.2, index := p.1 }
    current_index := 0 }

/-- Replace the key object at position `i` by `f` of its old value;
positions out of range are left alone (Python mutates through an object
reference, which always exists). -/
def modifyKey (l : List APIKey) (i : Nat) (f : APIKey → APIKey) : List APIKey :=
  match l.get? i with
  | none => l
  | some k => l.set i (f k)

/-- One iteration step of the `while attempts < len(self.keys)` loop of
`get_next_key` (lines 54–67), with `fuel` the remaining iterations and
`idx` the current value of `self.current_index`.  Returns the selected
position (if any), the updated key list, and the final cursor. -/
def getNextKeyAux (now : Nat) : Nat → List APIKey → Nat → Option Nat × List APIKey × Nat
  | 0, keys, idx => (none, keys, idx)
  | fuel + 1, keys, idx =>
    match keys.get? idx with
    | none => (none, keys, idx)
    | some k =>
      let idx' := (idx + 1) % keys.length
      if k.status = .AVAILABLE then
        (some idx, keys, idx')
      else if k.status = .RATE_LIMITED ∧ k.cooldown_until < now then
        (some idx, keys.set idx { k with status := .AVAILABLE, error_count := 0 }, idx')
      else
        getNextKeyAux now fuel keys idx'

/-- `GeminiKeyManager.get_next_key` (lines 48–69): scan at most
`len(keys)` positions from the cursor; `current_time > key.cooldown_until`
is the strict comparison of line 62. -/
def get_next_key (now : Nat) (s : ManagerState) : Option Nat × ManagerState :=
  let r := getNextKeyAux now s.keys.length s.keys s.current_index
  (r.1, { keys := r.2.1, current_index := r.2.2 })

/-- `GeminiKeyManager.mark_rate_limited` (lines 77–81). -/
def mark_rate_limited (now : Nat) (s : ManagerState) (i : Nat)
    (cooldown_seconds : Nat := 60) : ManagerState :=
  { s with keys := modifyKey s.keys i fun k =>
      { k with status := .RATE_LIMITED
               cooldown_until := now + cooldown_seconds
               error_count := k.error_count + 1 } }

/-- `GeminiKeyManager.mark_error` (lines 83–87). -/
def mark_error (s : ManagerState) (i : Nat) : ManagerState :=
  { s with keys := modifyKey s.keys i fun k =>
      let ec := k.error_count + 1
      { k with error_count := ec
               status := if 3 ≤ ec then .ERROR else k.status } }

/-- `GeminiKeyManager.mark_success` (lines 89–92). -/
def mark_success (now : Nat) (s : ManagerState) (i : Nat) : ManagerState :=
  { s with keys := modifyKey s.keys i fun k =>
      { k with last_used := now, error_count := 0 } }

/-- The fixed purpose→model mapping (lines 40–46) with the
`self.models.get(purpose, self.models["fallback"])` default of line 101. -/
def modelFor (purpose : String) : String :=
  if purpose = "orchestrator" then "gemini-3-flash-preview"
  else if purpose = "vision" then "gemini-3-flash-preview"
  else if purpose = "fallback" then "gemini-3-flash-preview"
  else if purpose = "creative" then "gemini-3-flash-preview"
  else if purpose = "pro" then "gemini-3-pro-preview"
  else "gemini-3-flash-preview"

/-! ### Executable string primitives (Python `.lower()`, `in`, `.strip()`, `.split(',')`) -/

/-- ASCII lowercasing of one character, as Python `str.lower` acts on the
ASCII error messages involved. -/
def lowerChar (c : Char) : Char :=
  if 'A' ≤ c ∧ c ≤ 'Z' then Char.ofNat (c.toNat + 32) else c

/-- `str.lower()`. -/
def strLower (s : String) : String := ⟨s.data.map lowerChar⟩

/-- Does `needle` occur as a contiguous substring of the list? -/
def hasSubAux (needle : List Char) : List Char → Bool
  | [] => needle.isEmpty
  | c :: cs => needle.isPrefixOf (c :: cs) || hasSubAux needle cs

/-- Python's `needle in hay` on strings. -/
def containsSub (hay needle : String) : Bool := hasSubAux needle.data hay.data

/-- Whitespace test for Python `str.strip()`. -/
def isSpc (c : Char) : Bool := c = ' ' || c = '\t' || c = '\n' || c = '\r'

/-- Python `str.strip()` on the character list. -/
def trimChars (l : List Char) : List Char :=
  ((l.dropWhile isSpc).reverse.dropWhile isSpc).reverse

/-- Python `str.split(',')` on the character list. -/
def splitComma (l : List Char) : List (List Char) :=
  l.foldr (fun c acc =>
    match acc with
    | [] => [[c]]
    | a :: as => if c = ',' then [] :: a :: as else (c :: a) :: as) [[]]

/-! ### The call executor `call_with_retry` (lines 105–133) -/

/-- Outcome of one `client.models.generate_content` invocation: the
response text, or the string `str(e)` of the exception it raised. -/
inductive NetResult where
  | success (text : String)
  | failure (msg : String)

/-- What a `call_with_retry` invocation produces for its caller. -/
inductive CallResult where
  | ok (text : String)
  | retriesExhausted
  | unboundLocal
  deriving DecidableEq, Repr

/-- Message of the exception `get_model` raises on line 98 when
`get_next_key` yields no key. -/
def poolExhaustedMsg : String := "All API keys exhausted or rate limited"

/-- Result of one iteration of the retry loop: either the function
returns/raises, or the loop continues with the (possibly re-bound) local
variable `key`. -/
inductive AttemptOut where
  | done (r : CallResult) (s : ManagerState)
  | next (keyVar : Option Nat) (s : ManagerState)
  deriving DecidableEq, Repr

/-- The `except` block of lines 120–131: classify `str(e).lower()` and
apply exactly one transition to the credential the local variable `key`
refers to.  If `key` was never bound (possible when `get_model` raised on
the very first attempt), evaluating it raises `UnboundLocalError`. -/
def handleFailure (now : Nat) (keyVar : Option Nat) (s : ManagerState)
    (msg : String) : AttemptOut :=
  match keyVar with
  | none => .done .unboundLocal s
  | some k =>
    let e := strLower msg
    if containsSub e "quota" || containsSub e "rate" || containsSub e "429" then
      .next (some k) (mark_rate_limited now s k 60)
    else if containsSub e "resource" || containsSub e "exhausted" then
      .next (some k) (mark_rate_limited now s k 300)
    else
      .next (some k) (mark_error s k)

/-- One iteration of the `for attempt in range(max_retries)` loop
(lines 107–131), at clock value `now`. -/
def attemptOnce (net : Nat → String → NetResult) (purpose : String)
    (now attempt : Nat) (keyVar : Option Nat) (s : ManagerState) : AttemptOut :=
  match get_next_key now s with
  | (none, s1) => handleFailure now keyVar s1 poolExhaustedMsg
  | (some i, s1) =>
    match net attempt (modelFor purpose) with
    | .success txt => .done (.ok txt) (mark_success now s1 i)
    | .failure msg => handleFailure now (some i) s1 msg

/-- The retry loop, with `remaining` iterations left, `attempt` the loop
counter so far, and `keyVar` the current binding of the local `key`.
Each attempt observes clock `t0 + attempt` (the `time.sleep(1)` of
line 131 advances the clock by one between attempts). -/
def callWithRetryAux (net : Nat → String → NetResult) (purpose : String) (t0 : Nat) :
    Nat → Nat → Option Nat → ManagerState → CallResult × ManagerState
  | 0, _, _, s => (.retriesExhausted, s)
  | remaining + 1, attempt, keyVar, s =>
    match attemptOnce net purpose (t0 + attempt) attempt keyVar s with
    | .done r s' => (r, s')
    | .next kv s' => callWithRetryAux net purpose t0 remaining (attempt + 1) kv s'

/-- `GeminiKeyManager.call_with_retry` (lines 105–133). -/
def call_with_retry (net : Nat → String → NetResult) (purpose : String)
    (t0 : Nat) (s : ManagerState) (max_retries : Nat := 3) :
    CallResult × ManagerState :=
  callWithRetryAux net purpose t0 max_retries 0 none s

/-! ### Module-level loading and convenience wrappers (lines 139–171) -/

/-- `_load_keys` (lines 142–151): empty variable ⇒ `[]`; otherwise split
on commas, strip, and keep the non-empty entries. -/
def loadKeys (env : String) : List String :=
  if env = "" then []
  else (((splitComma env.data).map trimChars).filter (· ≠ [])).map fun l => ⟨l⟩

/-- Lines 153–158: the module-level `key_manager`, `None` when no keys
were configured. -/
def keyManager (env : String) : Option ManagerState :=
  if loadKeys env = [] then none else some (initManager (loadKeys env))

/-- What `call_orchestrator` gives back to its caller: a text, Python
`None`, or a propagated exception. -/
inductive OrchResult where
  | text (t : String)
  | pyNone
  | raised
  deriving DecidableEq, Repr

/-- `call_orchestrator` (lines 163–166): `None` when no manager is
configured, otherwise delegate to `call_with_retry`. -/
def call_orchestrator (net : Nat → String → NetResult) (t0 : Nat)
    (env : String) (_prompt : String) : OrchResult :=
  match keyManager env with
  | none => .pyNone
  | some s =>
    match (call_with_retry net "orchestrator" t0 s).1 with
    | .ok t => .text t
    | .retriesExhausted => .pyNone
    | .unboundLocal => .raised

/-! ### Derived notions used to state the claims -/

/-- `n` consecutive `get_next_key` calls at clock `now`: the list of
selected positions and the final state. -/
def selectRun (now : Nat) : Nat → ManagerState → List (Option Nat) × ManagerState
  | 0, s => ([], s)
  | n + 1, s =>
    let r := get_next_key now s
    let rest := selectRun now n r.2
    (r.1 :: rest.1, rest.2)

/-- One scheduler operation, as named by the spec: `select`,
`markRateLimited`, `markError`, `markSuccess`. -/
inductive MgrOp where
  | sel (now : Nat)
  | rateLimit (now i cooldown : Nat)
  | err (i : Nat)
  | succ (now i : Nat)

/-- Apply one scheduler operation to the manager state. -/
def applyOp (s : ManagerState) : MgrOp → ManagerState
  | .sel now => (get_next_key now s).2
  | .rateLimit now i c => mark_rate_limited now s i c
  | .err i => mark_error s i
  | .succ now i => mark_success now s i

/-- Apply a whole sequence of scheduler operations. -/
def applyOps (s : ManagerState) (ops : List MgrOp) : ManagerState :=
  ops.foldl applyOp s

/-! ### Concrete states and oracles used in counterexamples and witnesses -/

/-- A pool holding a single credential. -/
def onePool (k : APIKey) : ManagerState := { keys := [k], current_index := 0 }

/-- A network oracle whose every invocation fails with the message
`"boom"` (no rate-limit or resource keyword). -/
def netBoom : Nat → String → NetResult := fun _ _ => .failure "boom"

/-- One fresh credential. -/
def pool0 : ManagerState := onePool { key := "k", index := 0 }

/-- One credential that has already failed twice. -/
def poolE2 : ManagerState := onePool { key := "k", index := 0, error_count := 2 }

/-- One credential rate-limited until clock 10. -/
def poolRL : ManagerState :=
  onePool { key := "k", index := 0, status := .RATE_LIMITED, cooldown_until := 10 }

/-- One credential rate-limited with an elapsed cooldown and
`error_count = 1`. -/
def poolRL1 : ManagerState :=
  onePool { key := "k", index := 0, status := .RATE_LIMITED, error_count := 1,
            cooldown_until := 0 }

/-- Three available credentials with the cursor at position 1. -/
def pool3 : ManagerState :=
  { keys := [{ key := "a", index := 0 }, { key := "b", index := 1 },
             { key := "c", index := 2 }],
    current_index := 1 }

/-! ### Helper lemmas -/

theorem modifyKey_get_self {l : List APIKey} {i : Nat} {k : APIKey}
    (f : APIKey → APIKey) (h : l.get? i = some k) :
    (modifyKey l i f).get? i = some (f k) := by
  have hlt : i < l.length := by
    rcases List.get?_eq_some.1 h with ⟨hlt, _⟩
    exact hlt
  simp only [modifyKey, h]
  exact List.get?_set_eq_of_lt _ hlt

theorem modifyKey_get_other {l : List APIKey} {i j : Nat}
    (f : APIKey → APIKey) (h : i ≠ j) :
    (modifyKey l i f).get? j = l.get? j := by
  simp only [modifyKey]
  cases hg : l.get? i with
  | none => rfl
  | some k => exact List.get?_set_ne _ _ h

theorem modifyKey_cases {l : List APIKey} {i : Nat} {f : APIKey → APIKey}
    {k : APIKey} (h : k ∈ modifyKey l i f) :
    k ∈ l ∨ ∃ k₀ ∈ l, k = f k₀ := by
  simp only [modifyKey] at h
  cases hg : l.get? i with
  | none => rw [hg] at h; exact Or.inl h
  | some k₀ =>
    rw [hg] at h
    rcases List.mem_or_eq_of_mem_set h with h' | h'
    · exact Or.inl h'
    · exact Or.inr ⟨k₀, List.get?_mem hg, h'⟩

/-- A scan that selects nothing does not change the key list. -/
theorem getNextKeyAux_none (now : Nat) (fuel : Nat) :
    ∀ (keys : List APIKey) (idx : Nat),
      (getNextKeyAux now fuel keys idx).1 = none →
      (getNextKeyAux now fuel keys idx).2.1 = keys := by
  induction fuel with
  | zero => intro keys idx _; rfl
  | succ n ih =>
    intro keys idx h
    simp only [getNextKeyAux] at h ⊢
    cases hg : keys.get? idx with
    | none => simp [hg]
    | some k =>
      simp only [hg] at h ⊢
      by_cases hA : k.status = .AVAILABLE
      · simp [hA] at h
      · simp only [hA, if_false] at h ⊢
        by_cases hRL : k.status = .RATE_LIMITED ∧ k.cooldown_until < now
        · simp [hRL] at h
        · simp only [hRL, if_false] at h ⊢
          exact ih keys _ h

/-- A scan that selects position `m` selected it either because it was
AVAILABLE (keys unchanged) or through the cooldown-recovery transition
(only position `m` rewritten). -/
theorem getNextKeyAux_some (now : Nat) (fuel : Nat) :
    ∀ (keys : List APIKey) (idx m : Nat),
      (getNextKeyAux now fuel keys idx).1 = some m →
      ∃ k, keys.get? m = some k ∧
        ((k.status = .AVAILABLE ∧ (getNextKeyAux now fuel keys idx).2.1 = keys) ∨
         (k.status = .RATE_LIMITED ∧ k.cooldown_until < now ∧
          (getNextKeyAux now fuel keys idx).2.1 =
            keys.set m { k with status := .AVAILABLE, error_count := 0 })) := by
  induction fuel with
  | zero => intro keys idx m h; exact absurd h (by simp [getNextKeyAux])
  | succ n ih =>
    intro keys idx m h
    simp only [getNextKeyAux] at h ⊢
    cases hg : keys.get? idx with
    | none => rw [hg] at h; exact absurd h (by simp)
    | some k =>
      simp only [hg] at h ⊢
      by_cases hA : k.status = .AVAILABLE
      · simp only [hA, if_true, if_pos] at h ⊢
        obtain rfl : idx = m := by simpa using h
        exact ⟨k, hg, Or.inl ⟨hA, by simp [hA]⟩⟩
      · simp only [hA, if_false] at h ⊢
        by_cases hRL : k.status = .RATE_LIMITED ∧ k.cooldown_until < now
        · simp only [hRL, if_true, if_pos] at h ⊢
          obtain rfl : idx = m := by simpa using h
          exact ⟨k, hg, Or.inr ⟨hRL.1, hRL.2, by simp [hA, hRL]⟩⟩
        · simp only [hRL, if_false] at h ⊢
          exact ih keys _ m h

/-- Positions the scan did not select keep their key object. -/
theorem getNextKeyAux_frame (now fuel : Nat) (keys : List APIKey) (idx j : Nat)
    (h : (getNextKeyAux now fuel keys idx).1 ≠ some j) :
    (getNextKeyAux now fuel keys idx).2.1.get? j = keys.get? j := by
  cases hr : (getNextKeyAux now fuel keys idx).1 with
  | none => rw [getNextKeyAux_none now fuel keys idx hr]
  | some m =>
    rcases getNextKeyAux_some now fuel keys idx m hr with ⟨k, _, hsh⟩
    rcases hsh with ⟨_, hkeep⟩ | ⟨_, _, hset⟩
    · rw [hkeep]
    · rw [hset]
      exact List.get?_set_ne _ _ (by rintro rfl; exact h hr)

/-- A credential that is ERROR, or RATE_LIMITED with an unelapsed
cooldown (`now ≤ cooldown_until`, the negation of line 62's strict
comparison), is never the selected one. -/
theorem getNextKeyAux_skips (now : Nat) (fuel : Nat) :
    ∀ (keys : List APIKey) (idx i : Nat) (k : APIKey),
      keys.get? i = some k →
      (k.status = .ERROR ∨ (k.status = .RATE_LIMITED ∧ now ≤ k.cooldown_until)) →
      (getNextKeyAux now fuel keys idx).1 ≠ some i := by
  induction fuel with
  | zero => intro keys idx i k _ _; simp [getNextKeyAux]
  | succ n ih =>
    intro keys idx i k hk hbad
    simp only [getNextKeyAux]
    cases hg : keys.get? idx with
    | none => simp
    | some k' =>
      by_cases hA : k'.status = .AVAILABLE
      · simp only [hA, if_true, if_pos]
        intro hc
        obtain rfl : idx = i := by simpa using hc
        rw [hg] at hk; cases hk
        rcases hbad with hb | hb
        · rw [hb] at hA; cases hA
        · rw [hb.1] at hA; cases hA
      · simp only [hA, if_false]
        by_cases hRL : k'.status = .RATE_LIMITED ∧ k'.cooldown_until < now
        · simp only [hRL, if_true, if_pos]
          intro hc
          obtain rfl : idx = i := by simpa using hc
          rw [hg] at hk; cases hk
          rcases hbad with hb | hb
          · rw [hb] at hRL; exact absurd hRL.1 (by simp)
          · exact absurd hRL.2 (by omega)
        · simp only [hRL, if_false]
          exact ih keys _ i k hk hbad

/-! ### Claims -/

/-- C1: the claim says `call_with_retry` never raises and treats a
`PoolExhausted` select as the attempt's recorded failure.  The code
violates this: when `get_model` raises on the first attempt, the
`except` block evaluates the never-bound local `key` and the call
raises `UnboundLocalError` — both on an empty pool and on a pool whose
single credential is rate-limited with an unelapsed cooldown. -/
theorem C1_pool_exhaustion_raises_unbound_local :
    call_with_retry netBoom "orchestrator" 0 (initManager []) =
      (.unboundLocal, { keys := [], current_index := 0 }) ∧
    call_with_retry netBoom "orchestrator" 0 poolRL = (.unboundLocal, poolRL) := by
  decide

/-- C3 counterexample: a credential rate-limited until clock 10 is
examined by a scan at exactly clock 10 (`now = t+C`), yet it is skipped
and left unchanged (`none` is selected), because line 62 compares with
strict `>`; only the scan at clock 11 returns it. -/
theorem C3_counterexample_boundary :
    get_next_key 10 poolRL = (none, poolRL) ∧ (get_next_key 11 poolRL).1 = some 0 := by
  decide

/-- C3 amended: every `select()` at a time `≤ cooldown_until` (that is,
strictly before and also exactly at `t+C`) skips the RATE_LIMITED
credential and leaves it unchanged; a scan that examines it at a time
strictly after `t+C` transitions it to AVAILABLE, resets `error_count`
to 0, and returns it. -/
theorem C3_amended_cooldown_boundary (now : Nat) (s : ManagerState) (i : Nat)
    (k : APIKey) (hk : s.keys.get? i = some k) (hst : k.status = .RATE_LIMITED) :
    (now ≤ k.cooldown_until →
      (get_next_key now s).1 ≠ some i ∧ (get_next_key now s).2.keys.get? i = some k) ∧
    (k.cooldown_until < now → ∀ fuel : Nat,
      getNextKeyAux now (fuel + 1) s.keys i =
        (some i, s.keys.set i { k with status := .AVAILABLE, error_count := 0 },
         (i + 1) % s.keys.length)) := by
  constructor
  · intro hle
    have hskip := getNextKeyAux_skips now s.keys.length s.keys s.current_index i k hk
      (Or.inr ⟨hst, hle⟩)
    refine ⟨by simpa [get_next_key] using hskip, ?_⟩
    have hfr := getNextKeyAux_frame now s.keys.length s.keys s.current_index i hskip
    simp only [get_next_key]
    rw [hfr]
    exact hk
  · intro hlt fuel
    simp only [getNextKeyAux, hk]
    rw [if_neg (by simp [hst]), if_pos ⟨hst, hlt⟩]

/-- Witness for the C3 amended theorem at the concrete pool `poolRL`. -/
theorem C3_amended_witness :
    (10 ≤ (10 : Nat) →
      (get_next_key 10 poolRL).1 ≠ some 0 ∧
      (get_next_key 10 poolRL).2.keys.get? 0 =
        some { key := "k", index := 0, status := .RATE_LIMITED, cooldown_until := 10 }) ∧
    ((10 : Nat) < 10 → ∀ fuel : Nat,
      getNextKeyAux 10 (fuel + 1) poolRL.keys 0 =
        (some 0, poolRL.keys.set 0 { key := "k", index := 0, cooldown_until := 10 },
         (0 + 1) % poolRL.keys.length)) :=
  C3_amended_cooldown_boundary 10 poolRL 0
    { key := "k", index := 0, status := .RATE_LIMITED, cooldown_until := 10 }
    (by decide) (by decide)

/-- C4 counterexample: the credential of `poolRL1` has `error_count = 1`;
the `select()` at clock 1 (cooldown elapsed) returns it and resets its
`error_count` to 0 — a decrease performed by an operation other than
`markSuccess`, refuting "reset to 0 exactly on a successful call ... and
never decreases in any other operation". -/
theorem C4_counterexample_select_resets :
    (poolRL1.keys.get? 0).map APIKey.error_count = some 1 ∧
    (get_next_key 1 poolRL1).1 = some 0 ∧
    ((get_next_key 1 poolRL1).2.keys.get? 0).map APIKey.error_count = some 0 := by
  decide

/-- C4 amended: `error_count` is reset to 0 by `markSuccess` and by
`select()`'s cooldown-recovery on the credential it returns; it
increases by exactly 1 on `markError` and on `markRateLimited`; and
`select()` leaves the count of every credential it does not return
unchanged. -/
theorem C4_amended_error_count_dynamics (now : Nat) (s : ManagerState) (i : Nat)
    (k : APIKey) (hk : s.keys.get? i = some k) :
    ((mark_success now s i).keys.get? i).map APIKey.error_count = some 0 ∧
    ((mark_error s i).keys.get? i).map APIKey.error_count = some (k.error_count + 1) ∧
    (∀ c, ((mark_rate_limited now s i c).keys.get? i).map APIKey.error_count =
      some (k.error_count + 1)) ∧
    ((get_next_key now s).1 ≠ some i → (get_next_key now s).2.keys.get? i = some k) ∧
    ((get_next_key now s).1 = some i →
      (get_next_key now s).2.keys.get? i = some k ∨
      ((get_next_key now s).2.keys.get? i).map APIKey.error_count = some 0) := by
  refine ⟨?_, ?_, ?_, ?_, ?_⟩
  · simp only [mark_success]; rw [modifyKey_get_self _ hk]; rfl
  · simp only [mark_error]; rw [modifyKey_get_self _ hk]; rfl
  · intro c; simp only [mark_rate_limited]; rw [modifyKey_get_self _ hk]; rfl
  · intro hne
    have hfr := getNextKeyAux_frame now s.keys.length s.keys s.current_index i
      (by simpa [get_next_key] using hne)
    simp only [get_next_key]
    rw [hfr]
    exact hk
  · intro heq
    have heq' : (getNextKeyAux now s.keys.length s.keys s.current_index).1 = some i := by
      simpa [get_next_key] using heq
    rcases getNextKeyAux_some now s.keys.length s.keys s.current_index i heq'
      with ⟨k', hk', hsh⟩
    rw [hk] at hk'
    cases hk'
    rcases hsh with ⟨_, hkeep⟩ | ⟨_, _, hset⟩
    · left
      simp only [get_next_key]
      rw [hkeep]
      exact hk
    · right
      have hlt : i < s.keys.length := by
        rcases List.get?_eq_some.1 hk with ⟨hlt, _⟩
        exact hlt
      have hgi : (get_next_key now s).2.keys.get? i =
          some { k with status := KeyStatus.AVAILABLE, error_count := 0 } := by
        simp only [get_next_key]
        rw [hset]
        exact List.get?_set_eq_of_lt _ hlt
      rw [hgi]
      rfl

/-- Witness for the C4 amended theorem at the concrete pool `poolRL1`. -/
theorem C4_amended_witness :
    ((mark_success 7 poolRL1 0).keys.get? 0).map APIKey.error_count = some 0 ∧
    ((mark_error poolRL1 0).keys.get? 0).map APIKey.error_count = some 2 ∧
    (∀ c, ((mark_rate_limited 7 poolRL1 0 c).keys.get? 0).map APIKey.error_count = some 2) ∧
    ((get_next_key 7 poolRL1).1 ≠ some 0 →
      (get_next_key 7 poolRL1).2.keys.get? 0 =
        some { key := "k", index := 0, status := .RATE_LIMITED, error_count := 1,
               cooldown_until := 0 }) ∧
    ((get_next_key 7 poolRL1).1 = some 0 →
      (get_next_key 7 poolRL1).2.keys.get? 0 =
        some { key := "k", index := 0, status := .RATE_LIMITED, error_count := 1,
               cooldown_until := 0 } ∨
      ((get_next_key 7 poolRL1).2.keys.get? 0).map APIKey.error_count = some 0) :=
  C4_amended_error_count_dynamics 7 poolRL1 0
    { key := "k", index := 0, status := .RATE_LIMITED, error_count := 1, cooldown_until := 0 }
    (by decide)

/-- C5: the claim says ERROR is terminal under every scheduler
operation.  The code violates it on a reachable executor trace: in
`poolE2` the single credential (two prior failures) becomes ERROR after
the first transient failure, but the second attempt's pool-exhaustion
exception — whose text contains "rate" — is classified as a rate limit
and marks the stale `key` binding, so the call ends with that credential
RATE_LIMITED (and recoverable), having left the ERROR state. -/
theorem C5_error_state_escaped :
    attemptOnce netBoom "orchestrator" 0 0 none poolE2 =
      .next (some 0) (onePool { key := "k", index := 0, status := .ERROR, error_count := 3 }) ∧
    call_with_retry netBoom "orchestrator" 0 poolE2 =
      (.retriesExhausted,
       onePool { key := "k", index := 0, status := .RATE_LIMITED, error_count := 5,
                 cooldown_until := 62 }) := by
  decide

/-- C6: the claim says a credential reaching ERROR after 3 consecutive
non-rate-limit failures is never again returned by `select()` for the
life of the pool.  The code makes it ERROR after the third `mark_error`,
but on a 4-attempt `call_with_retry` the fourth attempt's
pool-exhaustion exception marks the stale ERROR credential RATE_LIMITED
(cooldown 63), and the `select()` at clock 64 returns it again. -/
theorem C6_error_key_reselected :
    ((mark_error (mark_error (mark_error pool0 0) 0) 0).keys.get? 0).map APIKey.status =
      some .ERROR ∧
    (call_with_retry netBoom "orchestrator" 0 pool0 4).2 =
      onePool { key := "k", index := 0, status := .RATE_LIMITED, error_count := 4,
                cooldown_until := 63 } ∧
    (get_next_key 64 (call_with_retry netBoom "orchestrator" 0 pool0 4).2).1 = some 0 := by
  decide

/-- C8: an environment value whose parsed credential list is empty
yields `key_manager = None` (the scheduler reports itself unusable), and
`call_orchestrator` then returns `None` immediately, for every network
oracle — so no network call is ever attempted. -/
theorem C8_empty_pool_unusable (env : String) (h : loadKeys env = []) :
    keyManager env = none ∧
    ∀ (net : Nat → String → NetResult) (t0 : Nat) (prompt : String),
      call_orchestrator net t0 env prompt = .pyNone := by
  have hm : keyManager env = none := by simp [keyManager, h]
  exact ⟨hm, fun net t0 prompt => by simp [call_orchestrator, hm]⟩

/-- Witness for C8 at the environment value `" , "`, which parses to an
empty credential list. -/
theorem C8_witness :
    keyManager " , " = none ∧
    ∀ (net : Nat → String → NetResult) (t0 : Nat) (prompt : String),
      call_orchestrator net t0 " , " prompt = .pyNone :=
  C8_empty_pool_unusable " , " (by decide)

/-- C9: `mark_success` sets `last_used` to the current time and resets
`error_count` to 0, while preserving the credential's `status`,
`cooldown_until`, `key` and `index`, every other credential, and the
cursor. -/
theorem C9_mark_success_frame (now : Nat) (s : ManagerState) (i : Nat) (k : APIKey)
    (h : s.keys.get? i = some k) :
    (∃ k', (mark_success now s i).keys.get? i = some k' ∧
      k'.last_used = now ∧ k'.error_count = 0 ∧
      k'.status = k.status ∧ k'.cooldown_until = k.cooldown_until ∧
      k'.key = k.key ∧ k'.index = k.index) ∧
    (∀ j, j ≠ i → (mark_success now s i).keys.get? j = s.keys.get? j) ∧
    (mark_success now s i).current_index = s.current_index := by
  refine ⟨⟨{ k with last_used := now, error_count := 0 },
    modifyKey_get_self _ h, rfl, rfl, rfl, rfl, rfl, rfl⟩,
    fun j hj => modifyKey_get_other _ (fun e => hj e.symm), rfl⟩

/-- Witness for C9 at the concrete pool `poolRL1`. -/
theorem C9_witness :
    (∃ k', (mark_success 9 poolRL1 0).keys.get? 0 = some k' ∧
      k'.last_used = 9 ∧ k'.error_count = 0 ∧
      k'.status = KeyStatus.RATE_LIMITED ∧ k'.cooldown_until = 0 ∧
      k'.key = "k" ∧ k'.index = 0) ∧
    (∀ j, j ≠ 0 → (mark_success 9 poolRL1 0).keys.get? j = poolRL1.keys.get? j) ∧
    (mark_success 9 poolRL1 0).current_index = poolRL1.current_index :=
  C9_mark_success_frame 9 poolRL1 0
    { key := "k", index := 0, status := .RATE_LIMITED, error_count := 1, cooldown_until := 0 }
    (by decide)

/-- No scheduler operation ever writes the status EXHAUSTED. -/
theorem applyOp_no_exhausted (s : ManagerState) (op : MgrOp)
    (h : ∀ k ∈ s.keys, k.status ≠ .EXHAUSTED) :
    ∀ k ∈ (applyOp s op).keys, k.status ≠ .EXHAUSTED := by
  intro k hk
  cases op with
  | sel now =>
    simp only [applyOp, get_next_key] at hk
    cases hr : (getNextKeyAux now s.keys.length s.keys s.current_index).1 with
    | none =>
      rw [getNextKeyAux_none now s.keys.length s.keys s.current_index hr] at hk
      exact h k hk
    | some m =>
      rcases getNextKeyAux_some now s.keys.length s.keys s.current_index m hr
        with ⟨k₀, _, hsh⟩
      rcases hsh with ⟨_, hkeep⟩ | ⟨_, _, hset⟩
      · rw [hkeep] at hk; exact h k hk
      · rw [hset] at hk
        rcases List.mem_or_eq_of_mem_set hk with h' | rfl
        · exact h k h'
        · simp
  | rateLimit now i c =>
    simp only [applyOp, mark_rate_limited] at hk
    rcases modifyKey_cases hk with h' | ⟨k₀, _, rfl⟩
    · exact h k h'
    · simp
  | err i =>
    simp only [applyOp, mark_error] at hk
    rcases modifyKey_cases hk with h' | ⟨k₀, hk₀, rfl⟩
    · exact h k h'
    · by_cases h3 : 3 ≤ k₀.error_count + 1
      · simp [h3]
      · simpa [h3] using h k₀ hk₀
  | succ now i =>
    simp only [applyOp, mark_success] at hk
    rcases modifyKey_cases hk with h' | ⟨k₀, hk₀, rfl⟩
    · exact h k h'
    · simpa using h k₀ hk₀

/-- Absence of EXHAUSTED is preserved along any operation sequence. -/
theorem applyOps_no_exhausted (ops : List MgrOp) :
    ∀ (s : ManagerState), (∀ k ∈ s.keys, k.status ≠ .EXHAUSTED) →
      ∀ k ∈ (applyOps s ops).keys, k.status ≠ .EXHAUSTED := by
  induction ops with
  | nil => intro s h; exact h
  | cons op rest ih =>
    intro s h
    exact ih (applyOp s op) (applyOp_no_exhausted s op h)

/-- C10: although `KeyStatus` declares a fourth value EXHAUSTED, no
scheduler operation ever assigns it, so along every operation sequence
from a freshly constructed pool, every credential's status is one of
AVAILABLE, RATE_LIMITED, ERROR. -/
theorem C10_exhausted_unreachable (api_keys : List String) (ops : List MgrOp)
    (k : APIKey) (hk : k ∈ (applyOps (initManager api_keys) ops).keys) :
    k.status = .AVAILABLE ∨ k.status = .RATE_LIMITED ∨ k.status = .ERROR := by
  have hinit : ∀ k ∈ (initManager api_keys).keys, k.status ≠ KeyStatus.EXHAUSTED := by
    intro k hk
    simp only [initManager, List.mem_map] at hk
    rcases hk with ⟨p, _, rfl⟩
    simp
  have hne := applyOps_no_exhausted ops (initManager api_keys) hinit k hk
  cases h' : k.status with
  | AVAILABLE => exact Or.inl rfl
  | RATE_LIMITED => exact Or.inr (Or.inl rfl)
  | ERROR => exact Or.inr (Or.inr rfl)
  | EXHAUSTED => exact absurd h' hne

/-- Witness for C10: one `markError` on a fresh one-credential pool. -/
theorem C10_witness :
    ({ key := "a", index := 0, error_count := 1 } : APIKey) ∈
      (applyOps (initManager ["a"]) [.err 0]).keys ∧
    (({ key := "a", index := 0, error_count := 1 } : APIKey).status = .AVAILABLE ∨
     ({ key := "a", index := 0, error_count := 1 } : APIKey).status = .RATE_LIMITED ∨
     ({ key := "a", index := 0, error_count := 1 } : APIKey).status = .ERROR) :=
  ⟨by decide, C10_exhausted_unreachable ["a"] [.err 0] _ (by decide)⟩

/-- C7: for every failed invocation inside the retry loop — the scan
selected credential `i` and bound the local `key` to it, then the
network call failed with exception text `msg` — exactly one transition
is applied to credential `i`, chosen from `str(e).lower()`:
quota/rate/429 ⇒ RATE_LIMITED with the 60-second cooldown, otherwise
resource/exhausted ⇒ RATE_LIMITED with the 300-second cooldown,
otherwise `mark_error` (whose threshold 3 reaches ERROR). -/
theorem C7_failure_classification (net : Nat → String → NetResult) (purpose : String)
    (now attempt i : Nat) (kv : Option Nat) (s s1 : ManagerState) (msg : String)
    (hsel : get_next_key now s = (some i, s1))
    (hnet : net attempt (modelFor purpose) = .failure msg) :
    attemptOnce net purpose now attempt kv s =
      (if containsSub (strLower msg) "quota" || containsSub (strLower msg) "rate" ||
          containsSub (strLower msg) "429" then
        .next (some i) (mark_rate_limited now s1 i 60)
      else if containsSub (strLower msg) "resource" ||
          containsSub (strLower msg) "exhausted" then
        .next (some i) (mark_rate_limited now s1 i 300)
      else
        .next (some i) (mark_error s1 i)) := by
  simp only [attemptOnce, hsel, hnet, handleFailure]

/-- Witness for C7 at the failure text `"boom"` on the fresh pool. -/
theorem C7_witness :
    attemptOnce netBoom "orchestrator" 0 0 none pool0 =
      (if containsSub (strLower "boom") "quota" || containsSub (strLower "boom") "rate" ||
          containsSub (strLower "boom") "429" then
        AttemptOut.next (some 0) (mark_rate_limited 0 pool0 0 60)
      else if containsSub (strLower "boom") "resource" ||
          containsSub (strLower "boom") "exhausted" then
        AttemptOut.next (some 0) (mark_rate_limited 0 pool0 0 300)
      else
        AttemptOut.next (some 0) (mark_error pool0 0)) :=
  C7_failure_classification netBoom "orchestrator" 0 0 0 none pool0 pool0 "boom"
    (by decide) rfl

/-- In a list without duplicates, a member is counted exactly once. -/
theorem count_one_of_nodup_mem {α : Type} [BEq α] [LawfulBEq α] {l : List α} {a : α}
    (h : l.Nodup) (hm : a ∈ l) : l.count a = 1 := by
  induction l with
  | nil => cases hm
  | cons b l ih =>
    rcases List.nodup_cons.1 h with ⟨hb, hl⟩
    rcases List.mem_cons.1 hm with rfl | hm'
    · rw [List.count_cons_self, List.count_eq_zero_of_not_mem hb]
    · have hne : a ≠ b := by rintro rfl; exact hb hm'
      rw [List.count_cons_of_ne hne, ih hl hm']

/-- When the credential at the cursor is AVAILABLE, `select()` returns
it and only advances the cursor. -/
theorem get_next_key_allAvail (now : Nat) (s : ManagerState)
    (hA : ∀ k ∈ s.keys, k.status = .AVAILABLE)
    (hc : s.current_index < s.keys.length) :
    get_next_key now s =
      (some s.current_index,
       { keys := s.keys, current_index := (s.current_index + 1) % s.keys.length }) := by
  obtain ⟨n, hn⟩ : ∃ n, s.keys.length = n + 1 := ⟨s.keys.length - 1, by omega⟩
  obtain ⟨k, hk⟩ : ∃ k, s.keys.get? s.current_index = some k := by
    cases hgg : s.keys.get? s.current_index with
    | none =>
      have := List.get?_eq_none.1 hgg
      omega
    | some k => exact ⟨k, rfl⟩
  have hkA : k.status = .AVAILABLE := hA k (List.get?_mem hk)
  have hk' : s.keys[s.current_index]? = some k := by simpa using hk
  simp [get_next_key, hn, getNextKeyAux, hk', hkA]

/-- `n` consecutive selections on an all-AVAILABLE pool: the returned
positions advance one by one from the cursor, modulo the pool size, and
the keys are untouched. -/
theorem selectRun_allAvail (now : Nat) (n : Nat) :
    ∀ (s : ManagerState), (∀ k ∈ s.keys, k.status = .AVAILABLE) →
      s.current_index < s.keys.length →
      (selectRun now n s).1 =
        (List.range n).map (fun j => some ((s.current_index + j) % s.keys.length)) ∧
      (selectRun now n s).2 =
        { keys := s.keys, current_index := (s.current_index + n) % s.keys.length } := by
  induction n with
  | zero =>
    intro s hA hc
    refine ⟨rfl, ?_⟩
    cases s with
    | mk keys c =>
      simp only [selectRun]
      simp only at hc
      simp [Nat.mod_eq_of_lt hc]
  | succ m ih =>
    intro s hA hc
    have hlen0 : 0 < s.keys.length := by omega
    have hstep := get_next_key_allAvail now s hA hc
    have hc' : (s.current_index + 1) % s.keys.length < s.keys.length :=
      Nat.mod_lt _ hlen0
    obtain ⟨ih1, ih2⟩ :=
      ih { keys := s.keys, current_index := (s.current_index + 1) % s.keys.length } hA hc'
    have ih1' : (selectRun now m
        ⟨s.keys, (s.current_index + 1) % s.keys.length⟩).1 =
        (List.range m).map
          (fun j => some (((s.current_index + 1) % s.keys.length + j) % s.keys.length)) :=
      ih1
    have ih2' : (selectRun now m
        ⟨s.keys, (s.current_index + 1) % s.keys.length⟩).2 =
        { keys := s.keys,
          current_index := ((s.current_index + 1) % s.keys.length + m) % s.keys.length } :=
      ih2
    simp only [selectRun, hstep]
    constructor
    · rw [ih1', List.range_succ_eq_map, List.map_cons, List.map_map]
      congr 1
      · rw [Nat.add_zero, Nat.mod_eq_of_lt hc]
      · refine List.map_congr_left fun j _ => ?_
        simp only [Function.comp_apply]
        rw [Nat.mod_add_mod]
        congr 2
        omega
    · rw [ih2']
      congr 1
      rw [Nat.mod_add_mod]
      congr 1
      omega

/-- C2: on a pool whose credentials are all AVAILABLE, with the cursor
in range, `N = poolSize` consecutive `select()` calls return the
positions `cursor, cursor+1, …` modulo `N` — each of the `N`
credentials exactly once, in increasing index order modulo `N`,
starting from the cursor. -/
theorem C2_round_robin (now : Nat) (s : ManagerState)
    (hA : ∀ k ∈ s.keys, k.status = .AVAILABLE)
    (hc : s.current_index < s.keys.length) :
    (selectRun now s.keys.length s).1 =
      (List.range s.keys.length).map
        (fun j => some ((s.current_index + j) % s.keys.length)) ∧
    ∀ i < s.keys.length, (selectRun now s.keys.length s).1.count (some i) = 1 := by
  obtain ⟨hlist, -⟩ := selectRun_allAvail now s.keys.length s hA hc
  refine ⟨hlist, fun i hi => ?_⟩
  rw [hlist]
  have hlen0 : 0 < s.keys.length := by omega
  have hinj : ∀ x ∈ List.range s.keys.length, ∀ y ∈ List.range s.keys.length,
      some ((s.current_index + x) % s.keys.length) =
        some ((s.current_index + y) % s.keys.length) → x = y := by
    intro x hx y hy hxy
    have hx' := List.mem_range.1 hx
    have hy' := List.mem_range.1 hy
    have hmod : (s.current_index + x) % s.keys.length =
        (s.current_index + y) % s.keys.length := by
      simpa using hxy
    have hcancel : x % s.keys.length = y % s.keys.length :=
      Nat.ModEq.add_left_cancel' s.current_index hmod
    calc x = x % s.keys.length := (Nat.mod_eq_of_lt hx').symm
    _ = y % s.keys.length := hcancel
    _ = y := Nat.mod_eq_of_lt hy'
  have hnd := (List.nodup_range s.keys.length).map_on hinj
  have hmem : some i ∈ (List.range s.keys.length).map
      (fun j => some ((s.current_index + j) % s.keys.length)) := by
    refine List.mem_map.2 ⟨(i + s.keys.length - s.current_index) % s.keys.length,
      List.mem_range.2 (Nat.mod_lt _ hlen0), ?_⟩
    have h1 : (s.current_index +
        (i + s.keys.length - s.current_index) % s.keys.length) % s.keys.length =
        (s.current_index + (i + s.keys.length - s.current_index)) % s.keys.length :=
      Nat.add_mod_mod _ _ _
    have h2 : s.current_index + (i + s.keys.length - s.current_index) =
        i + s.keys.length := by omega
    rw [h1, h2, Nat.add_mod_right, Nat.mod_eq_of_lt hi]
  exact count_one_of_nodup_mem hnd hmem

/-- Witness for C2 on the three-credential pool with cursor 1. -/
theorem C2_witness :
    (selectRun 0 pool3.keys.length pool3).1 =
      (List.range pool3.keys.length).map
        (fun j => some ((pool3.current_index + j) % pool3.keys.length)) ∧
    ∀ i < pool3.keys.length, (selectRun 0 pool3.keys.length pool3).1.count (some i) = 1 :=
  C2_round_robin 0 pool3 (by decide) (by decide)
